import Mathlib

/-!
Shallow embedding of the croissant-tour rating core.

The persistent layer is the pair of SQL tables created by `initializeDatabase`
(`users(id)`, `ratings(id, user_id, place_id, rating, created_at, updated_at)`
with `CHECK (rating BETWEEN 1 AND 5)` and `UNIQUE(user_id, place_id)`), modelled
as a `DB` structure holding the two tables as lists of rows plus a logical clock
standing in for `CURRENT_TIMESTAMP` (each SQL statement that stamps a timestamp
draws the clock and advances it).  The exported server actions `upsertRatings`,
`deleteRating`, `getUserRatings`, `deleteAllUserRatings`, `getGlobalStats` and
`getAllUserRatings` are embedded as functions on `DB`; each SQL statement of the
source commits independently (the neon driver auto-commits per statement, there
is no surrounding transaction), so a batch that fails midway returns the state
reached so far together with the error.  The client-side handlers `setScore`
and `toggleVisited` are embedded as functions of the stored state, reading the
current score the way the client's mirrored local state does.
-/

namespace Croissant

/-- One row of the `ratings` table.  The surrogate `id SERIAL` column is not
modelled (nothing reads it); `created_at` and `updated_at` are logical
timestamps drawn from the database clock. -/
structure RatingRow where
  userId : String
  placeId : String
  rating : Int
  createdAt : Nat
  updatedAt : Nat
  deriving DecidableEq

/-- Database state: the `users` table (ids only; its `created_at` default is
never read by any action), the `ratings` table in insertion order, and the
logical clock standing in for `CURRENT_TIMESTAMP`. -/
structure DB where
  users : List String
  ratings : List RatingRow
  clock : Nat
  deriving DecidableEq

/-- The freshly initialized database: both tables empty. -/
def DB.empty : DB := ⟨[], [], 0⟩

/-- Errors the storage layer can raise: a `CHECK (rating BETWEEN 1 AND 5)`
violation, or the store being unreachable / failing transiently. -/
inductive DbError where
  | checkViolation
  | storageUnavailable
  deriving DecidableEq

/-- Key predicate for the `UNIQUE(user_id, place_id)` constraint. -/
def keyMatch (u p : String) (row : RatingRow) : Bool :=
  decide (row.userId = u ∧ row.placeId = p)

/-- The `INSERT INTO users (id) VALUES (...) ON CONFLICT (id) DO NOTHING`
statement run by `upsertRatings` before the rating loop. -/
def ensureUser (u : String) (db : DB) : DB :=
  if u ∈ db.users then db else { db with users := db.users ++ [u] }

/-- Input element of `upsertRatings` (the `RatingData` interface). -/
structure RatingData where
  placeId : String
  rating : Int
  deriving DecidableEq

/-- Whether a score passes the `CHECK (rating BETWEEN 1 AND 5)` constraint. -/
def ratingOk (r : Int) : Prop := 1 ≤ r ∧ r ≤ 5

instance (r : Int) : Decidable (ratingOk r) := by
  unfold ratingOk; infer_instance

/-- One `INSERT INTO ratings ... ON CONFLICT (user_id, place_id) DO UPDATE SET
rating = ..., updated_at = CURRENT_TIMESTAMP` statement.  The CHECK constraint
guards both the insert and the update arm; on violation the single statement
writes nothing. -/
def upsertOne (u p : String) (r : Int) (db : DB) : Except DbError DB :=
  if ratingOk r then
    if db.ratings.any (keyMatch u p) then
      Except.ok { db with
        ratings := db.ratings.map fun row =>
          if keyMatch u p row then
            { row with rating := r, updatedAt := db.clock }
          else row,
        clock := db.clock + 1 }
    else
      Except.ok { db with
        ratings := db.ratings ++ [⟨u, p, r, db.clock, db.clock⟩],
        clock := db.clock + 1 }
  else
    Except.error DbError.checkViolation

/-- The `for (const { placeId, rating } of ratings)` loop of `upsertRatings`:
each statement commits on its own, so on the first failure the loop stops and
the writes made so far stand; the error is what the action re-throws. -/
def upsertLoop (u : String) (items : List RatingData) (db : DB) :
    DB × Option DbError :=
  match items with
  | [] => (db, none)
  | item :: rest =>
    match upsertOne u item.placeId item.rating db with
    | Except.ok db' => upsertLoop u rest db'
    | Except.error e => (db, some e)

/-- The exported `upsertRatings` action: an empty batch returns at once
(before even the user insert); otherwise the user row is ensured and the batch
is processed item by item.  The second component is the error the action
re-throws to its caller, `none` on success. -/
def upsertRatings (u : String) (items : List RatingData) (db : DB) :
    DB × Option DbError :=
  if items.isEmpty then (db, none)
  else upsertLoop u items (ensureUser u db)

/-- The exported `deleteRating` action:
`DELETE FROM ratings WHERE user_id = ... AND place_id = ...`. -/
def deleteRating (u p : String) (db : DB) : DB :=
  { db with ratings := db.ratings.filter fun row => !keyMatch u p row }

/-- The exported `deleteAllUserRatings` action:
`DELETE FROM ratings WHERE user_id = ...`. -/
def deleteAllUserRatings (u : String) (db : DB) : DB :=
  { db with ratings := db.ratings.filter fun row => !decide (row.userId = u) }

/-- Output row of `getUserRatings`. -/
structure UserRating where
  placeId : String
  rating : Int
  deriving DecidableEq

/-- The happy path of the exported `getUserRatings` action:
`SELECT place_id, rating FROM ratings WHERE user_id = ...` mapped to objects
with fields placeId and rating. -/
def getUserRatings (u : String) (db : DB) : List UserRating :=
  (db.ratings.filter fun row => decide (row.userId = u)).map
    fun row => ⟨row.placeId, row.rating⟩

/-- The rating stored for a key, read the way the client's mirrored state holds
it: the score of the (unique) row for `(u, p)`, or `none` when no row exists.
`none` is the Unrated state of the spec's per-(user, place) state machine. -/
def lookupRating (u p : String) (db : DB) : Option Int :=
  (db.ratings.find? (keyMatch u p)).map fun row => row.rating

/-- Visited as the client derives it on load (`visited: userRating ? true :
false`): presence of a rating row, never a stored column. -/
def derivedVisited (u p : String) (db : DB) : Bool :=
  (lookupRating u p db).isSome

/-- The client `setScore` handler: `newScore = cur === score ? null : score`;
`null` → `deleteRating`, otherwise `upsertRatings` of the single item. -/
def setScore (u p : String) (score : Int) (db : DB) : DB × Option DbError :=
  if lookupRating u p db = some score then
    (deleteRating u p db, none)
  else
    upsertRatings u [⟨p, score⟩] db

/-- The client `toggleVisited` handler at target state `visited`: turning
visited off deletes the rating; turning it on re-upserts the current score when
one exists and otherwise touches nothing (the row is created lazily by
`setScore`). -/
def setVisited (u p : String) (visited : Bool) (db : DB) : DB × Option DbError :=
  if visited then
    match lookupRating u p db with
    | some s => upsertRatings u [⟨p, s⟩] db
    | none => (db, none)
  else
    (deleteRating u p db, none)

/-- Output row of `getGlobalStats`: the mean is held exactly (as a rational);
the source parses the SQL `AVG` into a float, and every statement proved about
it is exact, hence inside any positive tolerance. -/
structure GlobalStat where
  placeId : String
  avgRating : ℚ
  totalRatings : Nat
  deriving DecidableEq

/-- The distinct place ids occurring in the `ratings` table — the groups of
`GROUP BY place_id`, in first-appearance order. -/
def placeIds (db : DB) : List String :=
  (db.ratings.map fun row => row.placeId).dedup

/-- The scores of all rows for one place, across all users. -/
def scoresFor (p : String) (db : DB) : List Int :=
  (db.ratings.filter fun row => decide (row.placeId = p)).map fun row => row.rating

/-- The aggregate one `GROUP BY place_id` group produces:
`AVG(rating)` and `COUNT(*)`. -/
def statFor (p : String) (db : DB) : GlobalStat :=
  ⟨p, ((scoresFor p db).map fun s => (s : ℚ)).sum / (scoresFor p db).length,
    (scoresFor p db).length⟩

/-- Descending-average comparison used to model `ORDER BY AVG(rating) DESC`. -/
def statLe (a b : GlobalStat) : Bool :=
  decide (b.avgRating ≤ a.avgRating)

/-- The happy path of the exported `getGlobalStats` action: one aggregate row
per distinct place, presented in descending order of average.  The SQL
constrains only the descending order, so the tie order chosen here (stable in
group order) is one admissible presentation; `validStatsOutput` below captures
exactly what the query guarantees. -/
def getGlobalStats (db : DB) : List GlobalStat :=
  ((placeIds db).map fun p => statFor p db).mergeSort statLe

/-- What `SELECT ... GROUP BY place_id ORDER BY AVG(rating) DESC` guarantees
about its result: it is some permutation of the per-place aggregates that is
pairwise sorted by average descending.  SQL fixes nothing further — in
particular no tie order. -/
def validStatsOutput (db : DB) (out : List GlobalStat) : Prop :=
  out.Perm ((placeIds db).map fun p => statFor p db) ∧
    out.Pairwise fun a b => b.avgRating ≤ a.avgRating

/-- Output row of the dashboard query `getAllUserRatings`: a `LEFT JOIN`
row, null-extended for users without ratings. -/
structure AllRow where
  userId : String
  placeId : Option String
  rating : Option Int
  createdAt : Option Nat
  deriving DecidableEq

/-- The contribution of one `users` row to the `LEFT JOIN`: the user's rating
rows, or one null-extended row when they have none. -/
def userRows (u : String) (db : DB) : List AllRow :=
  match db.ratings.filter fun row => decide (row.userId = u) with
  | [] => [⟨u, none, none, none⟩]
  | rows => rows.map fun row => ⟨u, some row.placeId, some row.rating, some row.createdAt⟩

/-- The rows of `users LEFT JOIN ratings ON users.id = ratings.user_id`. -/
def leftJoinRows (db : DB) : List AllRow :=
  db.users.flatMap fun u => userRows u db

/-- Ordering key of `ORDER BY users.id, ratings.created_at` (a null
`created_at` can only occur on a user's sole row, so its rank is moot). -/
def allRowLe (a b : AllRow) : Bool :=
  decide (a.userId < b.userId ∨
    (a.userId = b.userId ∧ a.createdAt.getD 0 ≤ b.createdAt.getD 0))

/-- The happy path of the exported `getAllUserRatings` action. -/
def getAllUserRatings (db : DB) : List AllRow :=
  (leftJoinRows db).mergeSort allRowLe

/-- Result of the exported `getUserRatings` action as the caller sees it,
given the outcome of reaching the store: the `catch` arm returns an empty
array instead of re-throwing (`return [] // Return empty array on error`). -/
def getUserRatingsResult (u : String) (store : Except DbError DB) :
    Except DbError (List UserRating) :=
  match store with
  | Except.ok db => Except.ok (getUserRatings u db)
  | Except.error _ => Except.ok []

/-- Result of the exported `getGlobalStats` action as the caller sees it: the
`catch` arm returns an empty array instead of re-throwing. -/
def getGlobalStatsResult (store : Except DbError DB) :
    Except DbError (List GlobalStat) :=
  match store with
  | Except.ok db => Except.ok (getGlobalStats db)
  | Except.error _ => Except.ok []

/-- Result of the exported `getAllUserRatings` action as the caller sees it:
the `catch` arm returns an empty array instead of re-throwing. -/
def getAllUserRatingsResult (store : Except DbError DB) :
    Except DbError (List AllRow) :=
  match store with
  | Except.ok db => Except.ok (getAllUserRatings db)
  | Except.error _ => Except.ok []

/-- Result of the exported `upsertRatings` action as the caller sees it: the
`catch` arm re-throws (`throw error`), both for a store that cannot be reached
and for an error raised inside the batch. -/
def upsertRatingsResult (u : String) (items : List RatingData)
    (store : Except DbError DB) : Except DbError DB :=
  match store with
  | Except.ok db =>
    match upsertRatings u items db with
    | (db', none) => Except.ok db'
    | (_, some e) => Except.error e
  | Except.error e => Except.error e

/-- Result of the exported `deleteRating` action as the caller sees it: the
`catch` arm re-throws. -/
def deleteRatingResult (u p : String) (store : Except DbError DB) :
    Except DbError DB :=
  match store with
  | Except.ok db => Except.ok (deleteRating u p db)
  | Except.error e => Except.error e

/-- Result of the exported `deleteAllUserRatings` action as the caller sees
it: the `catch` arm re-throws (`throw error // Re-throw to allow caller to
handle`). -/
def deleteAllUserRatingsResult (u : String) (store : Except DbError DB) :
    Except DbError DB :=
  match store with
  | Except.ok db => Except.ok (deleteAllUserRatings u db)
  | Except.error e => Except.error e

/-- The operations of the service surface that mutate the store. -/
inductive Op where
  | opSetScore (u p : String) (s : Int)
  | opSetVisited (u p : String) (v : Bool)
  | opUpsert (u : String) (items : List RatingData)
  | opDelete (u p : String)

/-- Apply one operation, keeping the persisted state it leaves behind (a
failed batch still leaves its partial writes, as in the source). -/
def applyOp (db : DB) : Op → DB
  | Op.opSetScore u p s => (setScore u p s db).1
  | Op.opSetVisited u p v => (setVisited u p v db).1
  | Op.opUpsert u items => (upsertRatings u items db).1
  | Op.opDelete u p => deleteRating u p db

/-- Apply a sequence of operations left to right. -/
def applyOps (ops : List Op) (db : DB) : DB :=
  ops.foldl applyOp db

/-- Concrete store: user "u" has rated place "p" with score 4. -/
def exToggleDB : DB := ⟨["u"], [⟨"u", "p", 4, 0, 0⟩], 1⟩

/-- Concrete store with two places whose mean scores tie at 3. -/
def exTieDB : DB := ⟨["a", "b"], [⟨"a", "pa", 3, 0, 0⟩, ⟨"b", "pb", 3, 1, 1⟩], 2⟩

/-- Concrete store: one user rated places "2" (score 4) and "3" (score 2). -/
def exStatsDB : DB := ⟨["u"], [⟨"u", "2", 4, 0, 0⟩, ⟨"u", "3", 2, 1, 1⟩], 2⟩

/-- Concrete store: "u1" has rated three places, "u2" one. -/
def exFrameDB : DB :=
  ⟨["u1", "u2"],
    [⟨"u1", "1", 5, 0, 0⟩, ⟨"u1", "2", 4, 1, 1⟩, ⟨"u1", "3", 3, 2, 2⟩,
      ⟨"u2", "1", 2, 3, 3⟩], 4⟩

/-- Concrete store: two users exist but only "u1" has a rating. -/
def exDashDB : DB := ⟨["u1", "u2"], [⟨"u1", "1", 5, 0, 0⟩], 1⟩

/-- Key of a rating row: the column pair of `UNIQUE(user_id, place_id)`. -/
def keyOf (row : RatingRow) : String × String := (row.userId, row.placeId)

/-- How many rows the store holds for one (user, place) key. -/
def rowsForKey (db : DB) (u p : String) : Nat :=
  db.ratings.countP (keyMatch u p)

/-- The uniqueness invariant of the `ratings` table: its keys are pairwise
distinct, as the `UNIQUE(user_id, place_id)` constraint enforces. -/
def keysNodup (db : DB) : Prop :=
  (db.ratings.map keyOf).Nodup

lemma keyMatch_iff {u p : String} {row : RatingRow} :
    keyMatch u p row = true ↔ row.userId = u ∧ row.placeId = p := by
  simp [keyMatch]

lemma keyMatch_iff_keyOf {u p : String} {row : RatingRow} :
    keyMatch u p row = true ↔ keyOf row = (u, p) := by
  simp [keyMatch, keyOf, Prod.ext_iff]

lemma countP_keyMatch_le_one {l : List RatingRow} (u p : String)
    (h : (l.map keyOf).Nodup) : l.countP (keyMatch u p) ≤ 1 := by
  induction l with
  | nil => simp
  | cons r t ih =>
    simp only [List.map_cons, List.nodup_cons] at h
    obtain ⟨hnot, ht⟩ := h
    rw [List.countP_cons]
    by_cases hr : keyMatch u p r
    · have hzero : t.countP (keyMatch u p) = 0 := by
        rw [List.countP_eq_zero]
        intro a ha hka
        exact hnot (by
          rw [keyMatch_iff_keyOf] at hka hr
          rw [hr, ← hka]
          exact List.mem_map_of_mem keyOf ha)
      simp [hr, hzero]
    · simpa [hr] using ih ht

lemma keysNodup_of_sublist {l l' : List RatingRow} (hs : l'.Sublist l)
    (h : (l.map keyOf).Nodup) : (l'.map keyOf).Nodup :=
  (hs.map keyOf).nodup h

lemma map_keyOf_update (u p : String) (r : Int) (c : Nat)
    (l : List RatingRow) :
    List.map keyOf (l.map fun row =>
      if keyMatch u p row then { row with rating := r, updatedAt := c }
      else row) = List.map keyOf l := by
  induction l with
  | nil => rfl
  | cons a t ih => by_cases hk : keyMatch u p a <;> simp [hk, keyOf, ih]

lemma keysNodup_upsertOne {u p : String} {r : Int} {db db' : DB}
    (h : upsertOne u p r db = Except.ok db') (hn : keysNodup db) :
    keysNodup db' := by
  unfold upsertOne at h
  split at h
  · split at h
    · cases h
      unfold keysNodup at hn ⊢
      rw [map_keyOf_update]
      exact hn
    · rename_i hany
      cases h
      unfold keysNodup at hn ⊢
      rw [List.map_append, List.nodup_append]
      refine ⟨hn, List.nodup_singleton _, ?_⟩
      intro a ha hb
      simp only [List.map_cons, List.map_nil, List.mem_singleton] at hb
      obtain ⟨row, hrow, hkey⟩ := List.mem_map.mp ha
      have : keyMatch u p row = true := by
        rw [keyMatch_iff_keyOf, hkey, hb]
        rfl
      exact absurd (List.any_eq_true.mpr ⟨row, hrow, this⟩) (by simp [hany])
  · cases h

lemma keysNodup_upsertLoop {u : String} {items : List RatingData} {db : DB}
    (hn : keysNodup db) : keysNodup (upsertLoop u items db).1 := by
  induction items generalizing db with
  | nil => exact hn
  | cons item rest ih =>
    unfold upsertLoop
    cases h : upsertOne u item.placeId item.rating db with
    | ok db' => exact ih (keysNodup_upsertOne h hn)
    | error e => exact hn

lemma keysNodup_ensureUser {u : String} {db : DB} (hn : keysNodup db) :
    keysNodup (ensureUser u db) := by
  unfold ensureUser
  split <;> exact hn

lemma keysNodup_upsertRatings {u : String} {items : List RatingData} {db : DB}
    (hn : keysNodup db) : keysNodup (upsertRatings u items db).1 := by
  unfold upsertRatings
  split
  · exact hn
  · exact keysNodup_upsertLoop (keysNodup_ensureUser hn)

lemma keysNodup_deleteRating {u p : String} {db : DB} (hn : keysNodup db) :
    keysNodup (deleteRating u p db) :=
  keysNodup_of_sublist (List.filter_sublist _) hn

lemma keysNodup_deleteAllUserRatings {u : String} {db : DB}
    (hn : keysNodup db) : keysNodup (deleteAllUserRatings u db) :=
  keysNodup_of_sublist (List.filter_sublist _) hn

lemma keysNodup_applyOp {db : DB} (op : Op) (hn : keysNodup db) :
    keysNodup (applyOp db op) := by
  cases op with
  | opSetScore u p s =>
    simp only [applyOp]
    unfold setScore
    split
    · exact keysNodup_deleteRating hn
    · exact keysNodup_upsertRatings hn
  | opSetVisited u p v =>
    simp only [applyOp]
    cases v with
    | true =>
      unfold setVisited
      simp only [if_true]
      cases hl : lookupRating u p db with
      | some s => exact keysNodup_upsertRatings hn
      | none => exact hn
    | false => exact keysNodup_deleteRating hn
  | opUpsert u items => exact keysNodup_upsertRatings hn
  | opDelete u p => exact keysNodup_deleteRating hn

lemma keysNodup_applyOps {db : DB} (ops : List Op) (hn : keysNodup db) :
    keysNodup (applyOps ops db) := by
  induction ops generalizing db with
  | nil => exact hn
  | cons op rest ih => exact ih (keysNodup_applyOp op hn)

lemma rowsForKey_le_one_of_keysNodup {db : DB} (u p : String)
    (hn : keysNodup db) : rowsForKey db u p ≤ 1 :=
  countP_keyMatch_le_one u p hn

lemma lookupRating_eq_none {u p : String} {db : DB} :
    lookupRating u p db = none ↔ ∀ row ∈ db.ratings, ¬keyMatch u p row = true := by
  rw [lookupRating, Option.map_eq_none', List.find?_eq_none]

lemma lookupRating_deleteRating (u p : String) (db : DB) :
    lookupRating u p (deleteRating u p db) = none := by
  rw [lookupRating_eq_none]
  intro row hrow hk
  have := (List.mem_filter.mp hrow).2
  simp [hk] at this

lemma lookupRating_ensureUser (u' u p : String) (db : DB) :
    lookupRating u p (ensureUser u' db) = lookupRating u p db := by
  unfold ensureUser
  split <;> rfl

lemma find?_keyMatch_map_update {u p : String} (r : Int) (c : Nat)
    {l : List RatingRow} (hany : l.any (keyMatch u p) = true) :
    ((l.map fun row =>
        if keyMatch u p row then { row with rating := r, updatedAt := c }
        else row).find? (keyMatch u p)).map (fun row => row.rating) = some r := by
  induction l with
  | nil => simp at hany
  | cons a t ih =>
    by_cases hk : keyMatch u p a
    · have hk' : keyMatch u p { a with rating := r, updatedAt := c } = true := by
        rw [keyMatch_iff] at hk ⊢
        exact hk
      simp [hk, hk', List.find?_cons_of_pos]
    · have ht : t.any (keyMatch u p) = true := by
        simpa [hk] using hany
      simpa [hk, List.find?_cons_of_neg] using ih ht

lemma lookupRating_upsertOne {u p : String} {r : Int} {db db' : DB}
    (h : upsertOne u p r db = Except.ok db') :
    lookupRating u p db' = some r := by
  unfold upsertOne at h
  split at h
  · split at h
    · rename_i hany
      cases h
      exact find?_keyMatch_map_update r db.clock hany
    · rename_i hany
      cases h
      rw [lookupRating]
      simp only [List.find?_append]
      have hnone : db.ratings.find? (keyMatch u p) = none := by
        rw [List.find?_eq_none]
        intro x hx hkx
        exact absurd (List.any_eq_true.mpr ⟨x, hx, hkx⟩) (by simp [hany])
      rw [hnone]
      simp [keyMatch]
  · cases h

lemma upsertOne_ok_of_ratingOk {u p : String} {r : Int} (hr : ratingOk r)
    (db : DB) : ∃ db', upsertOne u p r db = Except.ok db' := by
  unfold upsertOne
  rw [if_pos hr]
  split
  · exact ⟨_, rfl⟩
  · exact ⟨_, rfl⟩

lemma setScore_of_eq {u p : String} {s : Int} {db : DB}
    (h : lookupRating u p db = some s) :
    setScore u p s db = (deleteRating u p db, none) := by
  unfold setScore
  rw [if_pos h]

lemma setScore_of_ne {u p : String} {s : Int} {db : DB}
    (h : ¬lookupRating u p db = some s) :
    setScore u p s db = upsertRatings u [⟨p, s⟩] db := by
  unfold setScore
  rw [if_neg h]

lemma lookupRating_upsertRatings_single {u p : String} {s : Int} {db : DB}
    (hs : ratingOk s) :
    lookupRating u p ((upsertRatings u [⟨p, s⟩] db).1) = some s := by
  show lookupRating u p ((upsertLoop u [⟨p, s⟩] (ensureUser u db)).1) = some s
  obtain ⟨db', hdb'⟩ := upsertOne_ok_of_ratingOk hs (ensureUser u db)
  unfold upsertLoop
  rw [hdb']
  exact lookupRating_upsertOne hdb'

/-- C1: after any sequence of setScore/setVisited/upsertRatings/deleteRating
operations from the initial store, the store holds at most one Rating row per
(userId, placeId) key — interleaved upserts for the same key, modelled as any
serialization the atomic per-statement upsert admits, collapse to one row
instead of duplicating. -/
theorem uniqueRatingPerKey (ops : List Op) (u p : String) :
    rowsForKey (applyOps ops DB.empty) u p ≤ 1 :=
  rowsForKey_le_one_of_keysNodup u p
    (keysNodup_applyOps ops (by simp [keysNodup, DB.empty]))

/-- C4, counterexample: with (u, p) already in Rated(4), calling
setScore(u, p, 4) twice in a row ends in Rated(4), not Unrated — the first
call toggles the rating off and the second recreates it, so the claim's
"starting from any state" is false at the state Rated(s). -/
theorem setScoreTwiceFromRatedNotUnrated :
    lookupRating "u" "p"
        (applyOps [Op.opSetScore "u" "p" 4, Op.opSetScore "u" "p" 4]
          exToggleDB) = some 4 ∧
      ¬lookupRating "u" "p"
          (applyOps [Op.opSetScore "u" "p" 4, Op.opSetScore "u" "p" 4]
            exToggleDB) = none := by
  constructor <;> decide

/-- C4, amended: starting from any state of (u, p) whose stored score is not
s — in particular Unrated — setScore(u, p, s) once yields Rated(s), twice
yields Unrated (the second identical call deletes the rating), and three
times yields Rated(s): requesting the currently stored score deletes the
rating, any other score is upserted. -/
theorem setScoreToggleCycle (db : DB) (u p : String) (s : Int)
    (hs : ratingOk s) (h : ¬lookupRating u p db = some s) :
    lookupRating u p (applyOps [Op.opSetScore u p s] db) = some s ∧
      lookupRating u p
        (applyOps [Op.opSetScore u p s, Op.opSetScore u p s] db) = none ∧
      lookupRating u p
        (applyOps [Op.opSetScore u p s, Op.opSetScore u p s,
          Op.opSetScore u p s] db) = some s := by
  have e1 : lookupRating u p ((setScore u p s db).1) = some s := by
    rw [setScore_of_ne h]
    exact lookupRating_upsertRatings_single hs
  have e2' : lookupRating u p ((setScore u p s ((setScore u p s db).1)).1) =
      none := by
    rw [setScore_of_eq e1]
    exact lookupRating_deleteRating u p _
  have e3 : lookupRating u p
      ((setScore u p s ((setScore u p s ((setScore u p s db).1)).1)).1) =
        some s := by
    rw [setScore_of_ne (by simp [e2'])]
    exact lookupRating_upsertRatings_single hs
  exact ⟨e1, e2', e3⟩

/-- Witness for the amended C4 theorem at the empty store and score 3. -/
theorem setScoreToggleCycle_witness :
    ratingOk 3 ∧
      ¬lookupRating "u" "p" DB.empty = some 3 ∧
      (lookupRating "u" "p"
          (applyOps [Op.opSetScore "u" "p" 3] DB.empty) = some 3 ∧
        lookupRating "u" "p"
          (applyOps [Op.opSetScore "u" "p" 3, Op.opSetScore "u" "p" 3]
            DB.empty) = none ∧
        lookupRating "u" "p"
          (applyOps [Op.opSetScore "u" "p" 3, Op.opSetScore "u" "p" 3,
            Op.opSetScore "u" "p" 3] DB.empty) = some 3) :=
  ⟨by decide, by decide,
    setScoreToggleCycle DB.empty "u" "p" 3 (by decide) (by decide)⟩

/-- C5: setVisited(u, p, false) performs exactly the rating deletion and
always leaves (u, p) Unrated, whatever score was stored; visited is the
derived predicate "a rating row exists" (the persisted model stores no
visited column), so score presence is equivalent to derived visited. -/
theorem setVisitedFalseUnrated (db : DB) (u p : String) :
    setVisited u p false db = (deleteRating u p db, none) ∧
      lookupRating u p ((setVisited u p false db).1) = none ∧
      derivedVisited u p ((setVisited u p false db).1) = false ∧
      (derivedVisited u p db = true ↔ ∃ s, lookupRating u p db = some s) := by
  refine ⟨rfl, ?_, ?_, ?_⟩
  · exact lookupRating_deleteRating u p db
  · show (lookupRating u p (deleteRating u p db)).isSome = false
    rw [lookupRating_deleteRating]
    rfl
  · rw [derivedVisited, Option.isSome_iff_exists]

/-- C9: deleting a rating that does not exist is a success with no effect —
the store state is returned unchanged and the action reports no error. -/
theorem deleteRatingNoopWhenAbsent (db : DB) (u p : String)
    (h : lookupRating u p db = none) :
    deleteRating u p db = db ∧
      deleteRatingResult u p (Except.ok db) = Except.ok db := by
  have hall := lookupRating_eq_none.mp h
  have hfilter : (db.ratings.filter fun row => !keyMatch u p row) =
      db.ratings :=
    List.filter_eq_self.mpr fun a ha => by simp [hall a ha]
  have hdb : deleteRating u p db = db := by
    rw [deleteRating, hfilter]
  exact ⟨hdb, by rw [deleteRatingResult, hdb]⟩

/-- Witness for C9: deleting the absent key ("u2", "9") leaves the concrete
store untouched. -/
theorem deleteRatingNoopWhenAbsent_witness :
    lookupRating "u2" "9" exFrameDB = none ∧
      (deleteRating "u2" "9" exFrameDB = exFrameDB ∧
        deleteRatingResult "u2" "9" (Except.ok exFrameDB) =
          Except.ok exFrameDB) :=
  ⟨by decide, deleteRatingNoopWhenAbsent exFrameDB "u2" "9" (by decide)⟩

/-- C2, counterexample: the batch [(p1, 3), (p2, 7)] on the empty store fails
with the CHECK violation, yet the store is not left unchanged — the valid
first item was already written when the second was rejected. -/
theorem upsertRatingsInvalidNotUnchanged :
    (upsertRatings "u" [⟨"p1", 3⟩, ⟨"p2", 7⟩] DB.empty).2 =
        some DbError.checkViolation ∧
      ¬(upsertRatings "u" [⟨"p1", 3⟩, ⟨"p2", 7⟩] DB.empty).1.ratings =
        DB.empty.ratings := by
  constructor <;> decide

lemma upsertLoop_stops (u : String) (bad : RatingData)
    (rest : List RatingData) (hbad : ¬ratingOk bad.rating) :
    ∀ (pre : List RatingData) (db : DB), (∀ it ∈ pre, ratingOk it.rating) →
      upsertLoop u (pre ++ bad :: rest) db =
        ((upsertLoop u pre db).1, some DbError.checkViolation) := by
  intro pre
  induction pre with
  | nil =>
    intro db _
    show upsertLoop u (bad :: rest) db = (db, some DbError.checkViolation)
    unfold upsertLoop
    have hb : upsertOne u bad.placeId bad.rating db =
        Except.error DbError.checkViolation := by
      unfold upsertOne
      rw [if_neg hbad]
    rw [hb]
  | cons it pre' ih =>
    intro db hpre
    obtain ⟨db', hdb'⟩ := upsertOne_ok_of_ratingOk (hpre it (by simp)) db
    show upsertLoop u (it :: (pre' ++ bad :: rest)) db =
      ((upsertLoop u (it :: pre') db).1, some DbError.checkViolation)
    unfold upsertLoop
    rw [hdb']
    exact ih db' fun a ha => hpre a (by simp [ha])

/-- C2, amended: a score outside [1,5] makes upsertRatings fail with the
store's CHECK-violation error, and the invalid item and everything after it
write nothing; but the batch is executed one statement at a time, so the
writes of the valid items before the invalid one persist — the stored state
is the state after the valid prefix, not the original state, and the
rejection happens at the store rather than before any mutation. -/
theorem upsertRatingsStopsAtInvalid (u : String) (db : DB)
    (pre : List RatingData) (bad : RatingData) (rest : List RatingData)
    (hpre : ∀ it ∈ pre, ratingOk it.rating) (hbad : ¬ratingOk bad.rating) :
    upsertRatings u (pre ++ bad :: rest) db =
      ((upsertLoop u pre (ensureUser u db)).1,
        some DbError.checkViolation) := by
  rw [upsertRatings, if_neg (by simp)]
  exact upsertLoop_stops u bad rest hbad pre (ensureUser u db) hpre

/-- Witness for the amended C2 theorem: batch [(p1, 3), (p2, 9)] on the empty
store keeps the write of (p1, 3) and reports the CHECK violation. -/
theorem upsertRatingsStopsAtInvalid_witness :
    (∀ it ∈ ([⟨"p1", 3⟩] : List RatingData), ratingOk it.rating) ∧
      ¬ratingOk (9 : Int) ∧
      upsertRatings "u" [⟨"p1", 3⟩, ⟨"p2", 9⟩] DB.empty =
        ((upsertLoop "u" [⟨"p1", 3⟩] (ensureUser "u" DB.empty)).1,
          some DbError.checkViolation) :=
  ⟨by decide, by decide,
    upsertRatingsStopsAtInvalid "u" DB.empty [⟨"p1", 3⟩] ⟨"p2", 9⟩ []
      (by decide) (by decide)⟩

/-- C6, counterexample: when the store cannot be reached, getUserRatings and
getGlobalStats (and getAllUserRatings) return a normal empty list instead of
surfacing the failure, so not every operation propagates storage errors. -/
theorem readActionsSwallowStorageErrors :
    getUserRatingsResult "u" (Except.error DbError.storageUnavailable) =
        Except.ok [] ∧
      getGlobalStatsResult (Except.error DbError.storageUnavailable) =
        Except.ok [] ∧
      getAllUserRatingsResult (Except.error DbError.storageUnavailable) =
        Except.ok [] :=
  ⟨rfl, rfl, rfl⟩

/-- C6, amended: the mutating actions upsertRatings, deleteRating and
deleteAllUserRatings re-throw storage failures to their immediate caller
(including a failure raised inside an upsert batch), while the read actions
getUserRatings, getGlobalStats and getAllUserRatings swallow storage errors
and return an empty list as a normal result. -/
theorem errorPropagationPolicy (e : DbError) (u p : String)
    (items : List RatingData) (db : DB)
    (hb : (upsertRatings u items db).2 = some e) :
    upsertRatingsResult u items (Except.error e) = Except.error e ∧
      deleteRatingResult u p (Except.error e) = Except.error e ∧
      deleteAllUserRatingsResult u (Except.error e) = Except.error e ∧
      upsertRatingsResult u items (Except.ok db) = Except.error e ∧
      getUserRatingsResult u (Except.error e) = Except.ok [] ∧
      getGlobalStatsResult (Except.error e) = Except.ok [] ∧
      getAllUserRatingsResult (Except.error e) = Except.ok [] := by
  refine ⟨rfl, rfl, rfl, ?_, rfl, rfl, rfl⟩
  rcases hup : upsertRatings u items db with ⟨db', err⟩
  rw [hup] at hb
  simp only at hb
  rw [upsertRatingsResult, hup, hb]

/-- Witness for the amended C6 theorem at a batch whose single item violates
the CHECK constraint. -/
theorem errorPropagationPolicy_witness :
    (upsertRatings "u" [⟨"p", 9⟩] DB.empty).2 =
        some DbError.checkViolation ∧
      (upsertRatingsResult "u" [⟨"p", 9⟩]
            (Except.error DbError.checkViolation) =
          Except.error DbError.checkViolation ∧
        deleteRatingResult "u" "p" (Except.error DbError.checkViolation) =
          Except.error DbError.checkViolation ∧
        deleteAllUserRatingsResult "u"
            (Except.error DbError.checkViolation) =
          Except.error DbError.checkViolation ∧
        upsertRatingsResult "u" [⟨"p", 9⟩] (Except.ok DB.empty) =
          Except.error DbError.checkViolation ∧
        getUserRatingsResult "u" (Except.error DbError.checkViolation) =
          Except.ok [] ∧
        getGlobalStatsResult (Except.error DbError.checkViolation) =
          Except.ok [] ∧
        getAllUserRatingsResult (Except.error DbError.checkViolation) =
          Except.ok []) :=
  ⟨by decide,
    errorPropagationPolicy DbError.checkViolation "u" "p" [⟨"p", 9⟩]
      DB.empty (by decide)⟩

/-- C8: deleteAllUserRatings empties exactly the given user's rows — their
getUserRatings becomes the empty list, while every other user's rating rows
(and hence their contribution to any aggregate) are untouched. -/
theorem deleteAllUserRatingsExact (db : DB) (u u' : String) (h : ¬u' = u) :
    getUserRatings u (deleteAllUserRatings u db) = [] ∧
      (deleteAllUserRatings u db).ratings.filter
          (fun row => decide (row.userId = u')) =
        db.ratings.filter (fun row => decide (row.userId = u')) ∧
      getUserRatings u' (deleteAllUserRatings u db) = getUserRatings u' db := by
  have hsame : (deleteAllUserRatings u db).ratings.filter
      (fun row => decide (row.userId = u')) =
      db.ratings.filter (fun row => decide (row.userId = u')) := by
    rw [deleteAllUserRatings]
    simp only [List.filter_filter]
    exact List.filter_congr fun a _ => by
      by_cases ha : a.userId = u'
      · simp [ha, fun hc : u' = u => h hc]
      · simp [ha]
  refine ⟨?_, hsame, ?_⟩
  · rw [getUserRatings, deleteAllUserRatings]
    simp only [List.filter_filter]
    have : db.ratings.filter
        (fun a => decide (a.userId = u) && !decide (a.userId = u)) = [] := by
      rw [List.filter_eq_nil_iff]
      intro a _
      by_cases ha : a.userId = u <;> simp [ha]
    rw [this]
    rfl
  · rw [getUserRatings, getUserRatings, hsame]

/-- Witness for C8: clearing "u1" in the concrete store leaves "u2"'s row
unchanged and "u1" with no ratings. -/
theorem deleteAllUserRatingsExact_witness :
    ¬("u2" : String) = "u1" ∧
      (getUserRatings "u1" (deleteAllUserRatings "u1" exFrameDB) = [] ∧
        (deleteAllUserRatings "u1" exFrameDB).ratings.filter
            (fun row => decide (row.userId = "u2")) =
          exFrameDB.ratings.filter (fun row => decide (row.userId = "u2")) ∧
        getUserRatings "u2" (deleteAllUserRatings "u1" exFrameDB) =
          getUserRatings "u2" exFrameDB) :=
  ⟨by decide, deleteAllUserRatingsExact exFrameDB "u1" "u2" (by decide)⟩

lemma countP_eq_one_of_nodup_mem {l : List String} (hn : l.Nodup)
    {p : String} (hm : p ∈ l) :
    l.countP (fun q => decide (q = p)) = 1 := by
  induction l with
  | nil => cases hm
  | cons a t ih =>
    rw [List.nodup_cons] at hn
    rw [List.countP_cons]
    rcases List.mem_cons.mp hm with rfl | hmt
    · have hz : t.countP (fun q => decide (q = p)) = 0 :=
        List.countP_eq_zero.mpr fun x hx hxa => hn.1 (by
          rw [← show x = p by simpa using hxa]
          exact hx)
      simp [hz]
    · have ha : ¬a = p := fun hap => hn.1 (hap ▸ hmt)
      simp [ha, ih hn.2 hmt]

lemma scoresFor_length_pos {p : String} {db : DB} (h : p ∈ placeIds db) :
    0 < (scoresFor p db).length := by
  obtain ⟨row, hrow, hpl⟩ := List.mem_map.mp (List.mem_dedup.mp h)
  have hmem : row ∈ db.ratings.filter fun r => decide (r.placeId = p) :=
    List.mem_filter.mpr ⟨hrow, by simp [hpl]⟩
  calc 0 < (db.ratings.filter fun r => decide (r.placeId = p)).length :=
        List.length_pos.mpr (List.ne_nil_of_mem hmem)
    _ = (scoresFor p db).length := (List.length_map _ _).symm

/-- C3: getGlobalStats — a pure function of the store's rows — carries, for
each place p present in the store, exactly one entry, whose ratingCount is
the number of that place's rows and whose averageScore is exactly (hence
within any tolerance) the mean of that place's scores. -/
theorem getGlobalStatsAggregates (db : DB) (p : String)
    (h : p ∈ placeIds db) :
    ((getGlobalStats db).countP fun g => decide (g.placeId = p)) = 1 ∧
      ∃ g, g ∈ getGlobalStats db ∧ g.placeId = p ∧
        g.totalRatings = (scoresFor p db).length ∧
        g.avgRating =
          ((scoresFor p db).map fun s => (s : ℚ)).sum /
            (scoresFor p db).length ∧
        g.avgRating * (scoresFor p db).length =
          ((scoresFor p db).map fun s => (s : ℚ)).sum := by
  have hperm : (getGlobalStats db).Perm
      ((placeIds db).map fun q => statFor q db) :=
    List.mergeSort_perm _ _
  constructor
  · rw [hperm.countP_eq, List.countP_map]
    exact countP_eq_one_of_nodup_mem (List.nodup_dedup _) h
  · refine ⟨statFor p db,
      hperm.mem_iff.mpr (List.mem_map_of_mem _ h), rfl, rfl, rfl, ?_⟩
    have hlen : ((scoresFor p db).length : ℚ) ≠ 0 :=
      Nat.cast_ne_zero.mpr (Nat.pos_iff_ne_zero.mp (scoresFor_length_pos h))
    exact div_mul_cancel₀ _ hlen

/-- Witness for C3 at a concrete store where place "2" has the single score
4. -/
theorem getGlobalStatsAggregates_witness :
    "2" ∈ placeIds exStatsDB ∧
      (((getGlobalStats exStatsDB).countP fun g =>
            decide (g.placeId = "2")) = 1 ∧
        ∃ g, g ∈ getGlobalStats exStatsDB ∧ g.placeId = "2" ∧
          g.totalRatings = (scoresFor "2" exStatsDB).length ∧
          g.avgRating =
            ((scoresFor "2" exStatsDB).map fun s => (s : ℚ)).sum /
              (scoresFor "2" exStatsDB).length ∧
          g.avgRating * (scoresFor "2" exStatsDB).length =
            ((scoresFor "2" exStatsDB).map fun s => (s : ℚ)).sum) :=
  ⟨by decide, getGlobalStatsAggregates exStatsDB "2" (by decide)⟩

lemma avg_statFor_pa : (statFor "pa" exTieDB).avgRating = 3 := by
  show ((scoresFor "pa" exTieDB).map fun s => (s : ℚ)).sum /
      (scoresFor "pa" exTieDB).length = 3
  rw [show scoresFor "pa" exTieDB = [3] from by decide]
  norm_num

lemma avg_statFor_pb : (statFor "pb" exTieDB).avgRating = 3 := by
  show ((scoresFor "pb" exTieDB).map fun s => (s : ℚ)).sum /
      (scoresFor "pb" exTieDB).length = 3
  rw [show scoresFor "pb" exTieDB = [3] from by decide]
  norm_num

lemma tie_base_list : (placeIds exTieDB).map (fun q => statFor q exTieDB) =
    [statFor "pa" exTieDB, statFor "pb" exTieDB] := by
  rw [show placeIds exTieDB = ["pa", "pb"] from by decide]
  rfl

/-- C7, counterexample: on a store where places "pa" and "pb" both average 3,
the query's contract (a permutation of the per-place aggregates, presented in
descending average order) is satisfied by two different lists — the SQL has
no secondary sort key, so the code determines no tie order at all, let alone
a deterministic one. -/
theorem globalStatsTieOrderUndetermined :
    validStatsOutput exTieDB
        [statFor "pa" exTieDB, statFor "pb" exTieDB] ∧
      validStatsOutput exTieDB
        [statFor "pb" exTieDB, statFor "pa" exTieDB] ∧
      ¬([statFor "pa" exTieDB, statFor "pb" exTieDB] =
        [statFor "pb" exTieDB, statFor "pa" exTieDB]) := by
  refine ⟨⟨?_, ?_⟩, ⟨?_, ?_⟩, ?_⟩
  · rw [tie_base_list]
  · exact List.pairwise_pair.mpr (by rw [avg_statFor_pa, avg_statFor_pb])
  · rw [tie_base_list]
    exact List.Perm.swap _ _ _
  · exact List.pairwise_pair.mpr (by rw [avg_statFor_pa, avg_statFor_pb])
  · intro hcontra
    have h1 : statFor "pa" exTieDB = statFor "pb" exTieDB :=
      (List.cons.injEq _ _ _ _ ▸ hcontra :
        statFor "pa" exTieDB = statFor "pb" exTieDB ∧ _).1
    have : ("pa" : String) = "pb" := congrArg GlobalStat.placeId h1
    exact absurd this (by decide)

/-- C7, amended: getGlobalStats returns the per-place aggregates sorted by
averageScore in descending order (any output of the query is such a
permutation); the order among entries with equal averages is left undetermined
by the code, which supplies no secondary sort key. -/
theorem globalStatsSortedDesc (db : DB) :
    validStatsOutput db (getGlobalStats db) := by
  constructor
  · exact List.mergeSort_perm _ _
  · have hs := @List.sorted_mergeSort GlobalStat statLe
      (fun a b c hab hbc => by
        simp only [statLe, decide_eq_true_eq] at hab hbc ⊢
        exact le_trans hbc hab)
      (fun a b => by
        simp only [statLe, Bool.or_eq_true, decide_eq_true_eq]
        exact le_total b.avgRating a.avgRating)
      ((placeIds db).map fun q => statFor q db)
    exact hs.imp fun hab => by simpa [statLe] using hab

lemma userRows_userId {u : String} {db : DB} {row : AllRow}
    (h : row ∈ userRows u db) : row.userId = u := by
  unfold userRows at h
  split at h
  · simp only [List.mem_singleton] at h
    rw [h]
  · obtain ⟨r, _, hr⟩ := List.mem_map.mp h
    rw [← hr]

/-- C10: getAllUserRatings yields at least one row for every user in the
users table; a user with zero ratings still appears, as exactly the
null-extended row (null placeId, null rating, null createdAt) — the result is
not a plain list of existing ratings and its consumers must accept null
fields. -/
theorem getAllUserRatingsTotal (db : DB) (u : String) (hu : u ∈ db.users) :
    (∃ row ∈ getAllUserRatings db, row.userId = u) ∧
      (db.ratings.filter (fun row => decide (row.userId = u)) = [] →
        AllRow.mk u none none none ∈ getAllUserRatings db ∧
          ∀ row ∈ getAllUserRatings db, row.userId = u →
            row = AllRow.mk u none none none) := by
  have hperm : (getAllUserRatings db).Perm (leftJoinRows db) :=
    List.mergeSort_perm _ _
  have hnullmem : db.ratings.filter (fun row => decide (row.userId = u)) = [] →
      AllRow.mk u none none none ∈ getAllUserRatings db := by
    intro hfil
    refine hperm.mem_iff.mpr (List.mem_flatMap.mpr ⟨u, hu, ?_⟩)
    unfold userRows
    rw [hfil]
    simp
  constructor
  · cases hfil : db.ratings.filter fun row => decide (row.userId = u) with
    | nil => exact ⟨AllRow.mk u none none none, hnullmem hfil, rfl⟩
    | cons r rs =>
      refine ⟨AllRow.mk u (some r.placeId) (some r.rating) (some r.createdAt),
        hperm.mem_iff.mpr (List.mem_flatMap.mpr ⟨u, hu, ?_⟩), rfl⟩
      unfold userRows
      rw [hfil]
      exact List.mem_map_of_mem _ (by simp)
  · intro hfil
    refine ⟨hnullmem hfil, fun row hrow hid => ?_⟩
    obtain ⟨u'', hu'', hrowu⟩ := List.mem_flatMap.mp (hperm.mem_iff.mp hrow)
    have huu : u'' = u := (userRows_userId hrowu).symm.trans hid
    rw [huu] at hrowu
    unfold userRows at hrowu
    rw [hfil] at hrowu
    simpa using hrowu

/-- Witness for C10: in the concrete store, "u2" is a user with no ratings
and surfaces as the null-extended row. -/
theorem getAllUserRatingsTotal_witness :
    "u2" ∈ exDashDB.users ∧
      ((∃ row ∈ getAllUserRatings exDashDB, row.userId = "u2") ∧
        (exDashDB.ratings.filter
            (fun row => decide (row.userId = "u2")) = [] →
          AllRow.mk "u2" none none none ∈ getAllUserRatings exDashDB ∧
            ∀ row ∈ getAllUserRatings exDashDB, row.userId = "u2" →
              row = AllRow.mk "u2" none none none)) :=
  ⟨by decide, getAllUserRatingsTotal exDashDB "u2" (by decide)⟩

end Croissant
